import Mathlib

/-!
Verification of the `go-backend` data-service core: the thread-safe `Store`
over users and tasks (`internal/store/store.go`), its JSON persistence
adapter (`internal/store/persistence.go`), and the TTL cache
(`internal/cache/cache.go`).

The Go code is shallowly embedded: each Go method becomes a pure Lean
function from the pre-state (and explicit arguments, with `time.Now()`
passed as an explicit clock value) to its result and post-state.  Go `int`
is embedded as `Int`, Go slices as `List`, Go `nil`-able pointer arguments
as `Option`, and the Go map inside the cache as a function
`String → Option (Entry α)`.  A method that spawns the asynchronous
persistence goroutine (`go s.persistAsync()`) records that fact in a
`persistTriggered : Bool` field of its result.
-/

namespace GoBackend

/-- `model.User` from `internal/model/model.go`. -/
structure User where
  ID : Int
  Name : String
  Email : String
  Role : String
deriving Repr, DecidableEq

/-- `model.Task` from `internal/model/model.go`. -/
structure Task where
  ID : Int
  Title : String
  Status : String
  UserID : Int
deriving Repr, DecidableEq

/-- The `Store` struct from `internal/store/store.go`: the two collections.
The `sync.RWMutex` field has no pure content; the lock discipline of
`Persist` is modelled separately by an event trace (see `persistTrace`). -/
structure Store where
  users : List User
  tasks : List Task
deriving Repr, DecidableEq

/-- `store.New`: a new empty Store. -/
def Store.new : Store := { users := [], tasks := [] }

/-- `store.NewWithData`: a Store with initial data. -/
def NewWithData (users : List User) (tasks : List Task) : Store :=
  { users := users, tasks := tasks }

/-- The `maxID` loop of `CreateUser` (store.go:72-77): start from 0, take
each user's ID when it is larger. -/
def maxUserID (users : List User) : Int :=
  users.foldl (fun maxID u => if u.ID > maxID then u.ID else maxID) 0

/-- The `maxID` loop of `CreateTask` (store.go:137-142). -/
def maxTaskID (tasks : List Task) : Int :=
  tasks.foldl (fun maxID t => if t.ID > maxID then t.ID else maxID) 0

/-- Result of `Store.CreateUser`: the returned user, the post-state, and
whether the call spawned the persistence goroutine. -/
structure CreateUserResult where
  user : User
  store : Store
  persistTriggered : Bool
deriving Repr, DecidableEq

/-- `Store.CreateUser` (store.go:67-92): generate `maxID + 1`, append the
new user, spawn `persistAsync`, return the new user. -/
def CreateUser (s : Store) (name email role : String) : CreateUserResult :=
  let maxID := maxUserID s.users
  let newUser : User := { ID := maxID + 1, Name := name, Email := email, Role := role }
  { user := newUser
    store := { s with users := s.users ++ [newUser] }
    persistTriggered := true }

/-- Result of `Store.CreateTask`. -/
structure CreateTaskResult where
  task : Task
  store : Store
  persistTriggered : Bool
deriving Repr, DecidableEq

/-- `Store.CreateTask` (store.go:132-157): same pattern as `CreateUser` on
the task collection. -/
def CreateTask (s : Store) (title status : String) (userID : Int) : CreateTaskResult :=
  let maxID := maxTaskID s.tasks
  let newTask : Task := { ID := maxID + 1, Title := title, Status := status, UserID := userID }
  { task := newTask
    store := { s with tasks := s.tasks ++ [newTask] }
    persistTriggered := true }

/-- `Store.GetUsers` (store.go:36-40).  The Go method returns the `s.users`
slice header itself, i.e. the returned sequence shares the Store's backing
array (no copy is taken).  The value returned is the collection itself;
the aliasing consequence of sharing the backing array is modelled by
`writeUsersElem` below. -/
def GetUsers (s : Store) : List User := s.users

/-- Go: an assignment `us[j] = u` into the slice returned by `GetUsers`
writes the Store's own backing array, since the returned slice header
shares it.  The resulting Store state: -/
def writeUsersElem (s : Store) (j : Nat) (u : User) : Store :=
  { s with users := s.users.set j u }

/-- The index loop of `GetUserByID` and `GetTaskByID`: first index whose
element satisfies the test, mirroring `for i := range` with early return. -/
def firstIdxWhere {α : Type} (p : α → Bool) : List α → Option Nat
  | [] => none
  | x :: xs => if p x then some 0 else (firstIdxWhere p xs).map (· + 1)

/-- `Store.GetUserByID` (store.go:43-52) returns `&s.users[i]` for the
first index `i` whose user has the given ID, or `nil`.  A pointer into the
Store's backing array is embedded as that index. -/
def GetUserByID (s : Store) (id : Int) : Option Nat :=
  firstIdxWhere (fun u => u.ID == id) s.users

/-- Dereferencing the pointer returned by `GetUserByID` reads the Store's
own array cell. -/
def derefUserPtr (s : Store) (p : Nat) : Option User := s.users.get? p

/-- Go: `*ptr = u` through the pointer returned by `GetUserByID` writes the
Store's own array cell. -/
def writeUserPtr (s : Store) (p : Nat) (u : User) : Store :=
  { s with users := s.users.set p u }

/-- `Store.UserExistsByEmail` (store.go:55-64): exact string match. -/
def UserExistsByEmail (s : Store) (email : String) : Bool :=
  s.users.any (fun u => u.Email == email)

/-- `strconv.Atoi` (equivalent to `ParseInt(s, 10, 0)` on a 64-bit
platform): an optional single leading `+` or `-` sign followed by one or
more decimal digits, value required to fit in a signed 64-bit integer;
anything else is an error, embedded as `none`. -/
def parseDecDigits : List Char → Option Nat
  | [] => none
  | cs =>
    cs.foldl (fun acc c =>
      match acc with
      | none => none
      | some n => if c.isDigit then some (10 * n + (c.toNat - '0'.toNat)) else none)
      (some 0)

/-- `strconv.Atoi` embedded; `none` is Go's non-nil `err` case. -/
def Atoi (s : String) : Option Int :=
  let signed : Option Int :=
    match s.data with
    | '+' :: rest => (parseDecDigits rest).map (fun n => (n : Int))
    | '-' :: rest => (parseDecDigits rest).map (fun n => -(n : Int))
    | cs => (parseDecDigits cs).map (fun n => (n : Int))
  match signed with
  | none => none
  | some v => if -(2 ^ 63) ≤ v ∧ v ≤ 2 ^ 63 - 1 then some v else none

/-- The filter body of `Store.GetTasks` (store.go:100-115) for one task. -/
def taskMatches (status userID : String) (task : Task) : Bool :=
  let matchStatus := status == "" || task.Status == status
  let matchUserID :=
    if userID == "" then true
    else
      match Atoi userID with
      | some id => task.UserID == id
      | none => false
  matchStatus && matchUserID

/-- `Store.GetTasks` (store.go:95-117): loop over `s.tasks` appending every
task that matches both filters to `filtered`. -/
def GetTasks (s : Store) (status userID : String) : List Task :=
  s.tasks.foldl (fun filtered task =>
    if taskMatches status userID task then filtered ++ [task] else filtered) []

/-- `Store.GetTaskByID` (store.go:120-129) returns `&s.tasks[i]` for the
first matching index, embedded as the index, like `GetUserByID`. -/
def GetTaskByID (s : Store) (id : Int) : Option Nat :=
  firstIdxWhere (fun t => t.ID == id) s.tasks

/-- Dereference of the pointer returned by `GetTaskByID`. -/
def derefTaskPtr (s : Store) (p : Nat) : Option Task := s.tasks.get? p

/-- Go: `*ptr = t` through the pointer returned by `GetTaskByID`. -/
def writeTaskPtr (s : Store) (p : Nat) (t : Task) : Store :=
  { s with tasks := s.tasks.set p t }

/-- The field-update step of `Store.UpdateTask` (store.go:167-175): only
non-`nil` arguments overwrite the corresponding field. -/
def applyTaskUpdate (t : Task) (title status : Option String) (userID : Option Int) : Task :=
  { t with
    Title := title.getD t.Title
    Status := status.getD t.Status
    UserID := userID.getD t.UserID }

/-- The loop of `Store.UpdateTask` (store.go:165-182): find the first task
with the given ID, update it in place, return it; `none` when absent. -/
def updateTaskList (tasks : List Task) (id : Int) (title status : Option String)
    (userID : Option Int) : Option Task × List Task :=
  match tasks with
  | [] => (none, [])
  | t :: rest =>
    if t.ID == id then
      let t' := applyTaskUpdate t title status userID
      (some t', t' :: rest)
    else
      let next := updateTaskList rest id title status userID
      (next.1, t :: next.2)

/-- Result of `Store.UpdateTask`. -/
structure UpdateTaskResult where
  result : Option Task
  store : Store
  persistTriggered : Bool
deriving Repr, DecidableEq

/-- `Store.UpdateTask` (store.go:161-184): `persistAsync` is spawned only
on the branch where a matching task was found. -/
def UpdateTask (s : Store) (id : Int) (title status : Option String)
    (userID : Option Int) : UpdateTaskResult :=
  let r := updateTaskList s.tasks id title status userID
  { result := r.1
    store := { s with tasks := r.2 }
    persistTriggered := r.1.isSome }

/-- The nested `Users` struct of `model.StatsResponse`. -/
structure UsersStats where
  Total : Nat
deriving Repr, DecidableEq

/-- The nested `Tasks` struct of `model.StatsResponse`. -/
structure TasksStats where
  Total : Nat
  Pending : Nat
  InProgress : Nat
  Completed : Nat
deriving Repr, DecidableEq

/-- `model.StatsResponse`. -/
structure StatsResponse where
  Users : UsersStats
  Tasks : TasksStats
deriving Repr, DecidableEq

/-- The `switch` body of `Store.GetStats` (store.go:195-204) for one task. -/
def statsStep (st : TasksStats) (task : Task) : TasksStats :=
  if task.Status == "pending" then { st with Pending := st.Pending + 1 }
  else if task.Status == "in-progress" then { st with InProgress := st.InProgress + 1 }
  else if task.Status == "completed" then { st with Completed := st.Completed + 1 }
  else st

/-- `Store.GetStats` (store.go:187-207). -/
def GetStats (s : Store) : StatsResponse :=
  { Users := { Total := s.users.length }
    Tasks := s.tasks.foldl statsStep
      { Total := s.tasks.length, Pending := 0, InProgress := 0, Completed := 0 } }

/-! ## Persistence adapter (`internal/store/persistence.go`) -/

/-- `store.PersistentData`: the JSON file's shape. -/
structure PersistentData where
  Users : List User
  Tasks : List Task
deriving Repr, DecidableEq

/-- `store.defaultStore` (persistence.go:87-100): the fixed seed dataset. -/
def defaultStore : Store :=
  NewWithData
    [ { ID := 1, Name := "John Doe", Email := "john@example.com", Role := "developer" },
      { ID := 2, Name := "Jane Smith", Email := "jane@example.com", Role := "designer" },
      { ID := 3, Name := "Bob Johnson", Email := "bob@example.com", Role := "manager" } ]
    [ { ID := 1, Title := "Implement authentication", Status := "pending", UserID := 1 },
      { ID := 2, Title := "Design user interface", Status := "in-progress", UserID := 2 },
      { ID := 3, Title := "Review code changes", Status := "completed", UserID := 3 } ]

/-- `store.Initialize` (persistence.go:71-84), as a function of the outcome
of `LoadData` (the file-system interaction itself is not embedded; an
absent data file surfaces here as `.ok` with two empty lists, per
persistence.go:24-29, and a read or parse failure as `.error`). -/
def Initialize (loadResult : Except String PersistentData) : Store :=
  match loadResult with
  | .error _ => defaultStore
  | .ok d =>
    if d.Users.length == 0 && d.Tasks.length == 0 then defaultStore
    else NewWithData d.Users d.Tasks

/-- The observable steps of `Store.Persist` (persistence.go:103-113), in
program order: `s.mu.RLock()` at line 104; the snapshot of `s.users` and
`s.tasks` into `PersistentData` at lines 107-110; the file write performed
by `SaveData(data)` at line 112; and the deferred `s.mu.RUnlock()` from
line 105, which runs when `Persist` returns, i.e. after `SaveData`. -/
inductive PersistStep
  | acquireReadLock
  | snapshotState
  | fileWrite
  | releaseReadLock
deriving Repr, DecidableEq

/-- The event trace of one `Store.Persist` call, in the order the source
executes the steps. -/
def persistTrace : List PersistStep :=
  [.acquireReadLock, .snapshotState, .fileWrite, .releaseReadLock]

/-- Whether a trace performs a file write at a point where the Store's
lock is held (acquired and not yet released). -/
def writesWhileLockHeld (tr : List PersistStep) : Bool :=
  (tr.foldl (fun (acc : Nat × Bool) ev =>
    match ev with
    | .acquireReadLock => (acc.1 + 1, acc.2)
    | .releaseReadLock => (acc.1 - 1, acc.2)
    | .fileWrite => (acc.1, acc.2 || decide (0 < acc.1))
    | .snapshotState => acc) (0, false)).2

/-- The trace the spec describes for `save()`: snapshot under a brief read
lock, release the lock, only then write the file. -/
def specSaveTrace : List PersistStep :=
  [.acquireReadLock, .snapshotState, .releaseReadLock, .fileWrite]

/-! ## TTL cache (`internal/cache/cache.go`)

Go's `time.Time` is embedded as a `Nat` instant; `time.Now()` becomes an
explicit `now` argument to each operation.  The `map[string]Entry` becomes
a function `String → Option (Entry α)`, and the cached `interface{}`
values a type parameter `α`. -/

/-- `cache.Entry`: a cached item with expiration. -/
structure Entry (α : Type) where
  Data : α
  ExpiresAt : Nat

/-- `cache.Cache`: entries map, TTL, and the atomic hit/miss counters. -/
structure Cache (α : Type) where
  entries : String → Option (Entry α)
  ttl : Nat
  hits : Nat
  misses : Nat

/-- `cache.New` (cache.go:60-69): empty map, given TTL, zero counters.
The background `cleanupExpired` goroutine it spawns is modelled by the
separate `cleanupSweep` below. -/
def Cache.new (α : Type) (ttl : Nat) : Cache α :=
  { entries := fun _ => none, ttl := ttl, hits := 0, misses := 0 }

/-- `Cache.Get` (cache.go:73-90): returns `(nil, false)` and counts a miss
when the key is absent or `time.Now().After(entry.ExpiresAt)` (strictly
after); otherwise returns the data, `true`, and counts a hit. -/
def Cache.get (c : Cache α) (now : Nat) (key : String) : Option α × Bool × Cache α :=
  match c.entries key with
  | none => (none, false, { c with misses := c.misses + 1 })
  | some entry =>
    if now > entry.ExpiresAt then
      (none, false, { c with misses := c.misses + 1 })
    else
      (some entry.Data, true, { c with hits := c.hits + 1 })

/-- `Cache.Set` (cache.go:93-101): unconditionally store the value with
`ExpiresAt = time.Now().Add(c.ttl)`. -/
def Cache.set (c : Cache α) (now : Nat) (key : String) (data : α) : Cache α :=
  { c with entries := fun k =>
      if k = key then some { Data := data, ExpiresAt := now + c.ttl } else c.entries k }

/-- One pass of the `cleanupExpired` sweep body (cache.go:150-157): delete
every entry whose expiry has passed at `now`. -/
def Cache.cleanupSweep (c : Cache α) (now : Nat) : Cache α :=
  { c with entries := fun k =>
      match c.entries k with
      | some entry => if now > entry.ExpiresAt then none else some entry
      | none => none }

/-! ## Helper lemmas -/

/-- `List.get?` after `List.set` at the written index. -/
theorem get?_set_self {α : Type} (l : List α) (i : Nat) (a : α) (h : i < l.length) :
    (l.set i a).get? i = some a := by
  induction l generalizing i with
  | nil => simp at h
  | cons x xs ih =>
    cases i with
    | zero => simp [List.set]
    | succ j =>
      simp only [List.set, List.get?]
      exact ih j (by simpa using h)

/-- `List.get?` after `List.set` at another index. -/
theorem get?_set_other {α : Type} (l : List α) (i j : Nat) (a : α) (h : i ≠ j) :
    (l.set i a).get? j = l.get? j := by
  induction l generalizing i j with
  | nil => simp
  | cons x xs ih =>
    cases i with
    | zero =>
      cases j with
      | zero => exact absurd rfl h
      | succ k => simp [List.set]
    | succ i' =>
      cases j with
      | zero => simp [List.set]
      | succ k =>
        simp only [List.set, List.get?]
        exact ih i' k (fun hk => h (by rw [hk]))

/-- `List.get? i = some a` forces `i < length`. -/
theorem get?_some_lt {α : Type} (l : List α) (i : Nat) (a : α) (h : l.get? i = some a) :
    i < l.length := by
  induction l generalizing i with
  | nil => simp at h
  | cons x xs ih =>
    cases i with
    | zero => simp
    | succ j =>
      simp only [List.get?] at h
      simpa using Nat.succ_lt_succ (ih j h)

/-- What `firstIdxWhere` finds: an element at that index satisfying `p`. -/
theorem firstIdxWhere_some {α : Type} (p : α → Bool) (l : List α) (i : Nat)
    (h : firstIdxWhere p l = some i) : ∃ a, l.get? i = some a ∧ p a = true := by
  induction l generalizing i with
  | nil => simp [firstIdxWhere] at h
  | cons x xs ih =>
    by_cases hx : p x = true
    · simp [firstIdxWhere, hx] at h
      subst h
      exact ⟨x, rfl, hx⟩
    · simp [firstIdxWhere, hx] at h
      obtain ⟨j, hj, rfl⟩ := h
      obtain ⟨a, ha, hpa⟩ := ih j hj
      exact ⟨a, ha, hpa⟩

/-! ## Claims -/

/-- Claim C2, counterexample.  The claim states that the persistence save
operation never performs file I/O while holding the Store's lock,
snapshotting under a brief read lock and releasing it before writing.  On
the program-order trace of `Store.Persist` the file write occurs while the
read lock is held (the deferred `RUnlock` runs only after `SaveData`
returns), and the trace is not the snapshot-release-write trace the spec
describes. -/
theorem persist_lock_claim_counterexample :
    writesWhileLockHeld persistTrace = true ∧ persistTrace ≠ specSaveTrace := by
  constructor
  · rfl
  · decide

/-- Claim C2, amended: `Store.Persist` acquires the read lock, snapshots
the users and tasks, and performs the file write while still holding the
read lock; the deferred unlock releases it only after the write, as the
last step of the trace. -/
theorem persist_writes_under_read_lock :
    writesWhileLockHeld persistTrace = true ∧
    persistTrace =
      [PersistStep.acquireReadLock, PersistStep.snapshotState,
       PersistStep.fileWrite, PersistStep.releaseReadLock] := by
  exact ⟨rfl, rfl⟩

/-- Claim C5, counterexample.  The claim states that mutating a value
returned by a read operation never changes the Store's state.  But
`GetUserByID` returns a pointer into the Store's backing array: on the
seed store, looking up user 1 yields the pointer to slot 0, and writing a
different user record through that pointer yields a different Store
state. -/
theorem store_read_alias_counterexample :
    GetUserByID defaultStore 1 = some 0 ∧
    writeUserPtr defaultStore 0
      { ID := 1, Name := "Mallory", Email := "john@example.com", Role := "developer" }
      ≠ defaultStore := by
  constructor
  · rfl
  · decide

/-- Claim C5, amended: `GetUserByID` and `GetTaskByID` return pointers
into the Store's backing arrays (and `GetUsers` returns the internal
slice itself), so returned records alias Store state: the returned
pointer targets the record with the requested ID inside the Store, a
write through it is visible in the Store's own collection, and writing
any record different from the stored one changes the Store's state. -/
theorem store_reads_alias_store_state :
    (∀ (s : Store) (id : Int) (p : Nat), GetUserByID s id = some p →
      ∃ u₀, derefUserPtr s p = some u₀ ∧ u₀.ID = id ∧
        ∀ u, derefUserPtr (writeUserPtr s p u) p = some u ∧
          (u ≠ u₀ → writeUserPtr s p u ≠ s)) ∧
    (∀ (s : Store) (id : Int) (p : Nat), GetTaskByID s id = some p →
      ∃ t₀, derefTaskPtr s p = some t₀ ∧ t₀.ID = id ∧
        ∀ t, derefTaskPtr (writeTaskPtr s p t) p = some t ∧
          (t ≠ t₀ → writeTaskPtr s p t ≠ s)) := by
  constructor
  · intro s id p hp
    obtain ⟨u₀, hu₀, hpu⟩ := firstIdxWhere_some _ _ _ hp
    refine ⟨u₀, hu₀, by simpa using hpu, ?_⟩
    intro u
    have hlt : p < s.users.length := get?_some_lt _ _ _ hu₀
    constructor
    · exact get?_set_self _ _ _ hlt
    · intro hne heq
      have husers : s.users.set p u = s.users := congrArg Store.users heq
      have : (s.users.set p u).get? p = s.users.get? p := by rw [husers]
      rw [get?_set_self _ _ _ hlt, hu₀] at this
      exact hne (by injection this)
  · intro s id p hp
    obtain ⟨t₀, ht₀, hpt⟩ := firstIdxWhere_some _ _ _ hp
    refine ⟨t₀, ht₀, by simpa using hpt, ?_⟩
    intro t
    have hlt : p < s.tasks.length := get?_some_lt _ _ _ ht₀
    constructor
    · exact get?_set_self _ _ _ hlt
    · intro hne heq
      have htasks : s.tasks.set p t = s.tasks := congrArg Store.tasks heq
      have : (s.tasks.set p t).get? p = s.tasks.get? p := by rw [htasks]
      rw [get?_set_self _ _ _ hlt, ht₀] at this
      exact hne (by injection this)

/-- Claim C5 amended, witness at the seed store. -/
theorem store_reads_alias_store_state_witness :
    ∃ u₀, derefUserPtr defaultStore 0 = some u₀ ∧ u₀.ID = 1 ∧
      ∀ u, derefUserPtr (writeUserPtr defaultStore 0 u) 0 = some u ∧
        (u ≠ u₀ → writeUserPtr defaultStore 0 u ≠ defaultStore) :=
  store_reads_alias_store_state.1 defaultStore 1 0 rfl

/-- Claim C7: at startup, a failed load, or a loaded result with no users
and no tasks (which is how an absent file surfaces), initializes the Store
to the fixed seed dataset of exactly 3 users and 3 tasks; any other loaded
result initializes the Store to exactly the loaded users and tasks. -/
theorem initialize_seeds_or_loads (r : Except String PersistentData) :
    (∀ e, r = Except.error e → Initialize r = defaultStore) ∧
    (∀ d, r = Except.ok d → d.Users = [] → d.Tasks = [] → Initialize r = defaultStore) ∧
    (∀ d, r = Except.ok d → ¬(d.Users = [] ∧ d.Tasks = []) →
      Initialize r = NewWithData d.Users d.Tasks) ∧
    defaultStore.users.length = 3 ∧ defaultStore.tasks.length = 3 := by
  refine ⟨?_, ?_, ?_, rfl, rfl⟩
  · rintro e rfl
    rfl
  · rintro d rfl hu ht
    simp [Initialize, hu, ht]
  · rintro d rfl hne
    have : ¬(d.Users.length == 0 && d.Tasks.length == 0) = true := by
      simp only [Bool.and_eq_true, beq_iff_eq, List.length_eq_zero]
      exact hne
    simp [Initialize, this]

/-- Claim C7, witness: a failed load seeds, an empty load seeds, and a
nonempty load is taken verbatim. -/
theorem initialize_seeds_or_loads_witness :
    Initialize (Except.error "failed to read data file") = defaultStore ∧
    Initialize (Except.ok { Users := [], Tasks := [] }) = defaultStore ∧
    Initialize (Except.ok { Users := [{ ID := 7, Name := "Ada", Email := "ada@x.com", Role := "dev" }], Tasks := [] }) =
      NewWithData [{ ID := 7, Name := "Ada", Email := "ada@x.com", Role := "dev" }] [] := by
  refine ⟨?_, ?_, ?_⟩
  · exact (initialize_seeds_or_loads _).1 _ rfl
  · exact (initialize_seeds_or_loads _).2.1 _ rfl rfl rfl
  · exact (initialize_seeds_or_loads _).2.2.1 _ rfl (by simp)

/-- Claim C8: after `set k v` at time `t`, a `get k` at time `tn ≥ t`
returns `(v, true)` while less than the TTL has elapsed, and a miss
(`nil, false`) once more than the TTL has elapsed — the expiry check is
performed by `get` itself, with no sweep involved. -/
theorem cache_set_get_ttl (α : Type) (c : Cache α) (t tn : Nat) (k : String) (v : α)
    (h : t ≤ tn) :
    (tn - t < c.ttl →
      ((c.set t k v).get tn k).1 = some v ∧ ((c.set t k v).get tn k).2.1 = true) ∧
    (tn - t > c.ttl →
      ((c.set t k v).get tn k).1 = none ∧ ((c.set t k v).get tn k).2.1 = false) := by
  have hent : (c.set t k v).entries k = some { Data := v, ExpiresAt := t + c.ttl } := by
    simp [Cache.set]
  constructor
  · intro hlt
    have hno : ¬ tn > t + c.ttl := by omega
    simp [Cache.get, hent, hno]
  · intro hgt
    have hyes : tn > t + c.ttl := by omega
    simp [Cache.get, hent, hyes]

/-- Claim C8, witness: with a 300-tick TTL, a value set at time 0 is a hit
at time 299 and a miss at time 301. -/
theorem cache_set_get_ttl_witness :
    ((((Cache.new Nat 300).set 0 "users" 5).get 299 "users").1 = some 5 ∧
      (((Cache.new Nat 300).set 0 "users" 5).get 299 "users").2.1 = true) ∧
    ((((Cache.new Nat 300).set 0 "users" 5).get 301 "users").1 = none ∧
      (((Cache.new Nat 300).set 0 "users" 5).get 301 "users").2.1 = false) :=
  ⟨(cache_set_get_ttl Nat (Cache.new Nat 300) 0 299 "users" 5 (by omega)).1 (by decide),
   (cache_set_get_ttl Nat (Cache.new Nat 300) 0 301 "users" 5 (by omega)).2 (by decide)⟩

/-- The `UpdateTask` loop leaves the list unchanged and reports `none`
when no task has the given ID. -/
theorem updateTaskList_no_match (tasks : List Task) (id : Int)
    (title status : Option String) (userID : Option Int)
    (h : ∀ t ∈ tasks, t.ID ≠ id) :
    updateTaskList tasks id title status userID = (none, tasks) := by
  induction tasks with
  | nil => rfl
  | cons t rest ih =>
    have ht : ¬(t.ID == id) = true := by
      simp only [beq_iff_eq]
      exact h t (List.mem_cons_self t rest)
    have hrest := ih (fun t' ht' => h t' (List.mem_cons_of_mem t ht'))
    simp [updateTaskList, ht, hrest]

/-- Claim C6: when no task has the given identifier, `UpdateTask` returns
the absent result, leaves the Store (users and tasks) entirely unchanged,
and does not spawn the persistence goroutine. -/
theorem updateTask_absent_id_no_effect (s : Store) (id : Int)
    (title status : Option String) (userID : Option Int)
    (h : ∀ t ∈ s.tasks, t.ID ≠ id) :
    (UpdateTask s id title status userID).result = none ∧
    (UpdateTask s id title status userID).store = s ∧
    (UpdateTask s id title status userID).persistTriggered = false := by
  have hu := updateTaskList_no_match s.tasks id title status userID h
  refine ⟨?_, ?_, ?_⟩ <;> simp [UpdateTask, hu]

/-- Claim C6, witness at the seed store with an identifier not in use. -/
theorem updateTask_absent_id_no_effect_witness :
    (UpdateTask defaultStore 42 (some "New") none none).result = none ∧
    (UpdateTask defaultStore 42 (some "New") none none).store = defaultStore ∧
    (UpdateTask defaultStore 42 (some "New") none none).persistTriggered = false :=
  updateTask_absent_id_no_effect defaultStore 42 (some "New") none none (by decide)

/-- The `UpdateTask` loop at the first task carrying the given ID: that
task is replaced by its field-updated version, everything before and after
is kept, and the updated task is reported. -/
theorem updateTaskList_found (pre post : List Task) (old : Task) (id : Int)
    (title status : Option String) (userID : Option Int)
    (hpre : ∀ t ∈ pre, t.ID ≠ id) (hold : old.ID = id) :
    updateTaskList (pre ++ old :: post) id title status userID =
      (some (applyTaskUpdate old title status userID),
       pre ++ applyTaskUpdate old title status userID :: post) := by
  induction pre with
  | nil =>
    simp only [List.nil_append, updateTaskList, hold, beq_self_eq_true, if_true]
  | cons t rest ih =>
    have ht : ¬(t.ID == id) = true := by
      simp only [beq_iff_eq]
      exact hpre t (List.mem_cons_self t rest)
    have hrest := ih (fun t' ht' => hpre t' (List.mem_cons_of_mem t ht'))
    simp [updateTaskList, ht, hrest]

/-- Claim C3: on an existing task identifier, `UpdateTask` overwrites
exactly the fields whose optional argument is supplied (`getD` keeps the
prior value for absent arguments), preserves the task's identifier and
all surrounding tasks and users, and returns the updated task. -/
theorem updateTask_updates_only_supplied_fields (s : Store) (id : Int)
    (title status : Option String) (userID : Option Int)
    (pre post : List Task) (old : Task)
    (hsplit : s.tasks = pre ++ old :: post)
    (hpre : ∀ t ∈ pre, t.ID ≠ id) (hold : old.ID = id) :
    (UpdateTask s id title status userID).result =
      some { ID := old.ID, Title := title.getD old.Title,
             Status := status.getD old.Status, UserID := userID.getD old.UserID } ∧
    (UpdateTask s id title status userID).store.tasks =
      pre ++ { ID := old.ID, Title := title.getD old.Title,
               Status := status.getD old.Status,
               UserID := userID.getD old.UserID } :: post ∧
    (UpdateTask s id title status userID).store.users = s.users := by
  have h := updateTaskList_found pre post old id title status userID hpre hold
  refine ⟨?_, ?_, rfl⟩ <;> simp [UpdateTask, hsplit, h, applyTaskUpdate]

/-- Claim C3, witness: updating task 2 of the seed store with only a new
title changes the title, keeps status and owner, and returns the task. -/
theorem updateTask_updates_only_supplied_fields_witness :
    (UpdateTask defaultStore 2 (some "Polish UI") none none).result =
      some { ID := 2, Title := "Polish UI", Status := "in-progress", UserID := 2 } ∧
    (UpdateTask defaultStore 2 (some "Polish UI") none none).store.tasks =
      [{ ID := 1, Title := "Implement authentication", Status := "pending", UserID := 1 },
       { ID := 2, Title := "Polish UI", Status := "in-progress", UserID := 2 },
       { ID := 3, Title := "Review code changes", Status := "completed", UserID := 3 }] ∧
    (UpdateTask defaultStore 2 (some "Polish UI") none none).store.users = defaultStore.users := by
  have h := updateTask_updates_only_supplied_fields defaultStore 2 (some "Polish UI") none none
    [{ ID := 1, Title := "Implement authentication", Status := "pending", UserID := 1 }]
    [{ ID := 3, Title := "Review code changes", Status := "completed", UserID := 3 }]
    { ID := 2, Title := "Design user interface", Status := "in-progress", UserID := 2 }
    rfl (by decide) rfl
  exact ⟨h.1, h.2.1, h.2.2⟩

/-- The filtering loop of `GetTasks`: appending matches in order equals
`List.filter`. -/
theorem foldl_append_filter {α : Type} (p : α → Bool) (l acc : List α) :
    l.foldl (fun f t => if p t then f ++ [t] else f) acc = acc ++ l.filter p := by
  induction l generalizing acc with
  | nil => simp
  | cons x xs ih =>
    by_cases hx : p x = true
    · rw [List.foldl_cons, if_pos hx, ih, List.filter_cons_of_pos hx]
      simp
    · rw [List.foldl_cons, if_neg hx, ih,
        List.filter_cons_of_neg (by simpa using hx)]

/-- The Boolean match of one task, read back as a proposition: status
filter AND user-id filter, where an empty filter passes and a non-empty
user-id filter passes only via a successful parse. -/
theorem taskMatches_iff (status userID : String) (t : Task) :
    taskMatches status userID t = true ↔
      (status = "" ∨ t.Status = status) ∧
      (userID = "" ∨ ∃ id, Atoi userID = some id ∧ t.UserID = id) := by
  unfold taskMatches
  by_cases hu : userID = ""
  · cases hA : Atoi userID <;>
      simp [hu, Bool.and_eq_true, Bool.or_eq_true, beq_iff_eq]
  · have hu' : ¬(userID == "") = true := by simpa using hu
    cases hA : Atoi userID with
    | none =>
      simp [hu', Bool.and_eq_true, Bool.or_eq_true, beq_iff_eq, hu, hA]
    | some v =>
      rw [if_neg hu']
      simp only [Bool.and_eq_true, Bool.or_eq_true, beq_iff_eq, Option.some.injEq]
      constructor
      · rintro ⟨hs, hv⟩
        exact ⟨hs, Or.inr ⟨v, rfl, hv⟩⟩
      · rintro ⟨hs, h | ⟨id', hid', hval⟩⟩
        · exact absurd h hu
        · cases hid'
          exact ⟨hs, hval⟩

/-- Claim C4: `GetTasks` returns exactly the tasks passing both filters
(their conjunction), an empty filter passes everything (so two empty
filters return the whole collection), and a non-empty user-id filter that
does not parse returns the empty list whatever the status filter. -/
theorem getTasks_filters_conjunctively (s : Store) (status userID : String) :
    GetTasks s status userID = s.tasks.filter (taskMatches status userID) ∧
    (∀ t, t ∈ GetTasks s status userID ↔
      t ∈ s.tasks ∧ (status = "" ∨ t.Status = status) ∧
        (userID = "" ∨ ∃ id, Atoi userID = some id ∧ t.UserID = id)) ∧
    GetTasks s "" "" = s.tasks ∧
    (userID ≠ "" → Atoi userID = none → GetTasks s status userID = []) := by
  have hfold : ∀ (st uid : String), GetTasks s st uid = s.tasks.filter (taskMatches st uid) := by
    intro st uid
    have := foldl_append_filter (taskMatches st uid) s.tasks []
    simpa [GetTasks] using this
  refine ⟨hfold status userID, ?_, ?_, ?_⟩
  · intro t
    rw [hfold status userID, List.mem_filter, taskMatches_iff]
  · rw [hfold "" ""]
    apply List.filter_eq_self.mpr
    intro t _
    rw [taskMatches_iff]
    exact ⟨Or.inl rfl, Or.inl rfl⟩
  · intro hne hA
    rw [hfold status userID]
    apply List.filter_eq_nil_iff.mpr
    intro t _
    intro hmatch
    rcases (taskMatches_iff status userID t).mp hmatch with ⟨_, h | ⟨id', hid', _⟩⟩
    · exact hne h
    · rw [hA] at hid'
      exact Option.noConfusion hid'

/-- Claim C4, witness: on the seed store, a status filter with an
unparsable user-id filter returns nothing. -/
theorem getTasks_filters_conjunctively_witness :
    GetTasks defaultStore "pending" "abc" = [] :=
  (getTasks_filters_conjunctively defaultStore "pending" "abc").2.2.2 (by decide) (by decide)

/-- The stats loop counts each enumerated status with `countP` and leaves
`Total` untouched. -/
theorem statsStep_foldl (tasks : List Task) (init : TasksStats) :
    tasks.foldl statsStep init =
      { Total := init.Total,
        Pending := init.Pending + tasks.countP (fun t => t.Status == "pending"),
        InProgress := init.InProgress + tasks.countP (fun t => t.Status == "in-progress"),
        Completed := init.Completed + tasks.countP (fun t => t.Status == "completed") } := by
  induction tasks generalizing init with
  | nil => simp [List.countP_nil]
  | cons t rest ih =>
    rw [List.foldl_cons, ih]
    by_cases h1 : t.Status = "pending"
    · simp [statsStep, h1, List.countP_cons]
      omega
    · by_cases h2 : t.Status = "in-progress"
      · simp [statsStep, h2, List.countP_cons]
        omega
      · by_cases h3 : t.Status = "completed"
        · simp [statsStep, h3, List.countP_cons]
          omega
        · have b1 : ¬(t.Status == "pending") = true := by simpa using h1
          have b2 : ¬(t.Status == "in-progress") = true := by simpa using h2
          have b3 : ¬(t.Status == "completed") = true := by simpa using h3
          simp [statsStep, b1, b2, b3, List.countP_cons]

/-- The three status buckets are disjoint, so their counts sum to at most
the list length, with equality exactly when every task's status is one of
the three enumerated strings. -/
theorem count_statuses_le_length (tasks : List Task) :
    tasks.countP (fun t => t.Status == "pending") +
      tasks.countP (fun t => t.Status == "in-progress") +
      tasks.countP (fun t => t.Status == "completed") ≤ tasks.length ∧
    (tasks.countP (fun t => t.Status == "pending") +
        tasks.countP (fun t => t.Status == "in-progress") +
        tasks.countP (fun t => t.Status == "completed") = tasks.length ↔
      ∀ t ∈ tasks,
        t.Status = "pending" ∨ t.Status = "in-progress" ∨ t.Status = "completed") := by
  induction tasks with
  | nil => simp
  | cons t rest ih =>
    obtain ⟨ih1, ih2⟩ := ih
    by_cases h1 : t.Status = "pending"
    · have e1 : (t.Status == "pending") = true := by rw [h1]; rfl
      have e2 : (t.Status == "in-progress") = false := by rw [h1]; decide
      have e3 : (t.Status == "completed") = false := by rw [h1]; decide
      simp only [List.countP_cons, List.length_cons, List.forall_mem_cons, e1, e2, e3]
      norm_num
      refine ⟨by omega, ?_, ?_⟩
      · intro he
        exact ⟨Or.inl h1, ih2.mp (by omega)⟩
      · rintro ⟨_, hrest⟩
        have := ih2.mpr hrest
        omega
    · by_cases h2 : t.Status = "in-progress"
      · have e1 : (t.Status == "pending") = false := by rw [h2]; decide
        have e2 : (t.Status == "in-progress") = true := by rw [h2]; rfl
        have e3 : (t.Status == "completed") = false := by rw [h2]; decide
        simp only [List.countP_cons, List.length_cons, List.forall_mem_cons, e1, e2, e3]
        norm_num
        refine ⟨by omega, ?_, ?_⟩
        · intro he
          exact ⟨Or.inr (Or.inl h2), ih2.mp (by omega)⟩
        · rintro ⟨_, hrest⟩
          have := ih2.mpr hrest
          omega
      · by_cases h3 : t.Status = "completed"
        · have e1 : (t.Status == "pending") = false := by rw [h3]; decide
          have e2 : (t.Status == "in-progress") = false := by rw [h3]; decide
          have e3 : (t.Status == "completed") = true := by rw [h3]; rfl
          simp only [List.countP_cons, List.length_cons, List.forall_mem_cons, e1, e2, e3]
          norm_num
          refine ⟨by omega, ?_, ?_⟩
          · intro he
            exact ⟨Or.inr (Or.inr h3), ih2.mp (by omega)⟩
          · rintro ⟨_, hrest⟩
            have := ih2.mpr hrest
            omega
        · have e1 : (t.Status == "pending") = false :=
            Bool.eq_false_iff.mpr (by simpa using h1)
          have e2 : (t.Status == "in-progress") = false :=
            Bool.eq_false_iff.mpr (by simpa using h2)
          have e3 : (t.Status == "completed") = false :=
            Bool.eq_false_iff.mpr (by simpa using h3)
          simp only [List.countP_cons, List.length_cons, List.forall_mem_cons, e1, e2, e3]
          norm_num
          refine ⟨by omega, ?_, ?_⟩
          · intro he
            exact absurd he (by omega)
          · rintro ⟨hvalid, _⟩
            rcases hvalid with h | h | h
            · exact absurd h h1
            · exact absurd h h2
            · exact absurd h h3

/-- Claim C9: `GetStats` reports the exact user and task counts, each
enumerated status bucket counts exactly the tasks carrying that status
string, a task with any other status lands in no bucket, the three
buckets sum to at most the task total, and they sum to the total exactly
when every task carries one of the three enumerated statuses. -/
theorem getStats_counts (s : Store) :
    (GetStats s).Users.Total = s.users.length ∧
    (GetStats s).Tasks.Total = s.tasks.length ∧
    (GetStats s).Tasks.Pending = s.tasks.countP (fun t => t.Status == "pending") ∧
    (GetStats s).Tasks.InProgress = s.tasks.countP (fun t => t.Status == "in-progress") ∧
    (GetStats s).Tasks.Completed = s.tasks.countP (fun t => t.Status == "completed") ∧
    (GetStats s).Tasks.Pending + (GetStats s).Tasks.InProgress +
      (GetStats s).Tasks.Completed ≤ (GetStats s).Tasks.Total ∧
    ((GetStats s).Tasks.Pending + (GetStats s).Tasks.InProgress +
        (GetStats s).Tasks.Completed = (GetStats s).Tasks.Total ↔
      ∀ t ∈ s.tasks,
        t.Status = "pending" ∨ t.Status = "in-progress" ∨ t.Status = "completed") := by
  have hfold := statsStep_foldl s.tasks
    { Total := s.tasks.length, Pending := 0, InProgress := 0, Completed := 0 }
  obtain ⟨hle, hiff⟩ := count_statuses_le_length s.tasks
  have hT : (GetStats s).Tasks =
      { Total := s.tasks.length,
        Pending := s.tasks.countP (fun t => t.Status == "pending"),
        InProgress := s.tasks.countP (fun t => t.Status == "in-progress"),
        Completed := s.tasks.countP (fun t => t.Status == "completed") } := by
    show s.tasks.foldl statsStep _ = _
    rw [hfold]
    simp
  refine ⟨rfl, ?_, ?_, ?_, ?_, ?_, ?_⟩ <;> rw [hT] <;>
    first
    | rfl
    | exact hle
    | exact hiff

/-- Claim C9, witness: the seed store has 3 users, 3 tasks, one task per
status bucket, and the buckets exhaust the total. -/
theorem getStats_counts_witness :
    (GetStats defaultStore).Users.Total = defaultStore.users.length :=
  (getStats_counts defaultStore).1

/-- The `UpdateTask` loop never changes the number of tasks. -/
theorem updateTaskList_length (tasks : List Task) (id : Int)
    (title status : Option String) (userID : Option Int) :
    (updateTaskList tasks id title status userID).2.length = tasks.length := by
  induction tasks with
  | nil => rfl
  | cons t rest ih =>
    by_cases ht : (t.ID == id) = true
    · simp [updateTaskList, ht]
    · simp [updateTaskList, ht, ih]

/-- The `UpdateTask` loop leaves every position not carrying the target ID
untouched. -/
theorem updateTaskList_frame (tasks : List Task) (id : Int)
    (title status : Option String) (userID : Option Int) (j : Nat)
    (h : ∀ t, tasks.get? j = some t → t.ID ≠ id) :
    (updateTaskList tasks id title status userID).2.get? j = tasks.get? j := by
  induction tasks generalizing j with
  | nil => simp [updateTaskList]
  | cons t rest ih =>
    by_cases ht : (t.ID == id) = true
    · cases j with
      | zero => exact absurd (beq_iff_eq.mp ht) (h t rfl)
      | succ k => simp [updateTaskList, ht]
    · cases j with
      | zero => simp [updateTaskList, ht]
      | succ k =>
        simp only [updateTaskList, Bool.if_false_left, if_neg ht]
        show (t :: (updateTaskList rest id title status userID).2).get? (k + 1) = _
        simp only [List.get?]
        exact ih k (fun t' h' => h t' (by simpa using h'))

/-- Claim C10: each mutation touches only its own collection and target
record — `CreateUser` appends exactly one user and leaves the tasks and
all existing users in place, `CreateTask` appends exactly one task and
leaves the users and all existing tasks in place, and `UpdateTask` keeps
the users, the task count, and every position whose task does not carry
the given identifier. -/
theorem mutations_touch_only_their_target (s : Store) (n e r ti st : String)
    (uid id : Int) (ot os : Option String) (ou : Option Int) :
    (CreateUser s n e r).store.users = s.users ++ [(CreateUser s n e r).user] ∧
    (CreateUser s n e r).store.tasks = s.tasks ∧
    (CreateTask s ti st uid).store.tasks = s.tasks ++ [(CreateTask s ti st uid).task] ∧
    (CreateTask s ti st uid).store.users = s.users ∧
    (UpdateTask s id ot os ou).store.users = s.users ∧
    (UpdateTask s id ot os ou).store.tasks.length = s.tasks.length ∧
    (∀ j, (∀ t, s.tasks.get? j = some t → t.ID ≠ id) →
      (UpdateTask s id ot os ou).store.tasks.get? j = s.tasks.get? j) := by
  refine ⟨rfl, rfl, rfl, rfl, rfl, updateTaskList_length s.tasks id ot os ou, ?_⟩
  intro j hj
  exact updateTaskList_frame s.tasks id ot os ou j hj

/-- Claim C10, witness: updating task 3 of the seed store leaves position
0 (task 1) in place. -/
theorem mutations_touch_only_their_target_witness :
    (UpdateTask defaultStore 3 (some "Rework") none none).store.tasks.get? 0 =
      defaultStore.tasks.get? 0 :=
  (mutations_touch_only_their_target defaultStore "n" "e" "r" "t" "s" 0 3
    (some "Rework") none none).2.2.2.2.2.2 0 (by decide)

/-! ## Identifier assignment over call sequences (claim C1) -/

/-- A creation call against the Store: one `CreateUser` or one
`CreateTask`. -/
inductive StoreCall where
  | mkUser (name email role : String)
  | mkTask (title status : String) (userID : Int)

/-- Run a sequence of creation calls, recording for each call which
collection it hit (`true` for users) and the identifier it assigned. -/
def execCalls : Store → List StoreCall → List (Bool × Int) × Store
  | s, [] => ([], s)
  | s, StoreCall.mkUser n e r :: rest =>
    let res := CreateUser s n e r
    let next := execCalls res.store rest
    ((true, res.user.ID) :: next.1, next.2)
  | s, StoreCall.mkTask ti st uid :: rest =>
    let res := CreateTask s ti st uid
    let next := execCalls res.store rest
    ((false, res.task.ID) :: next.1, next.2)

/-- The identifiers assigned to users along a call sequence, in order. -/
def assignedUserIDs (s : Store) (calls : List StoreCall) : List Int :=
  ((execCalls s calls).1.filter (fun x => x.1)).map (fun x => x.2)

/-- The identifiers assigned to tasks along a call sequence, in order. -/
def assignedTaskIDs (s : Store) (calls : List StoreCall) : List Int :=
  ((execCalls s calls).1.filter (fun x => !x.1)).map (fun x => x.2)

/-- Unfolding: a user-creation call records its assigned ID first. -/
theorem assignedUserIDs_user (s : Store) (n e r : String) (rest : List StoreCall) :
    assignedUserIDs s (StoreCall.mkUser n e r :: rest) =
      (CreateUser s n e r).user.ID :: assignedUserIDs (CreateUser s n e r).store rest := by
  simp [assignedUserIDs, execCalls]

/-- Unfolding: a task-creation call assigns no user ID. -/
theorem assignedUserIDs_task (s : Store) (ti st : String) (uid : Int)
    (rest : List StoreCall) :
    assignedUserIDs s (StoreCall.mkTask ti st uid :: rest) =
      assignedUserIDs (CreateTask s ti st uid).store rest := by
  simp [assignedUserIDs, execCalls]

/-- Unfolding: a task-creation call records its assigned ID first. -/
theorem assignedTaskIDs_task (s : Store) (ti st : String) (uid : Int)
    (rest : List StoreCall) :
    assignedTaskIDs s (StoreCall.mkTask ti st uid :: rest) =
      (CreateTask s ti st uid).task.ID :: assignedTaskIDs (CreateTask s ti st uid).store rest := by
  simp [assignedTaskIDs, execCalls]

/-- Unfolding: a user-creation call assigns no task ID. -/
theorem assignedTaskIDs_user (s : Store) (n e r : String) (rest : List StoreCall) :
    assignedTaskIDs s (StoreCall.mkUser n e r :: rest) =
      assignedTaskIDs (CreateUser s n e r).store rest := by
  simp [assignedTaskIDs, execCalls]

/-- The `maxID` fold never goes below its accumulator. -/
theorem userFold_ge_acc (l : List User) (acc : Int) :
    acc ≤ l.foldl (fun m u => if u.ID > m then u.ID else m) acc := by
  induction l generalizing acc with
  | nil => simp
  | cons x xs ih =>
    rw [List.foldl_cons]
    refine le_trans ?_ (ih _)
    by_cases h : x.ID > acc
    · rw [if_pos h]; omega
    · rw [if_neg h]

/-- The `maxID` fold dominates every element of the list. -/
theorem userFold_ge_mem (l : List User) (acc : Int) (u : User) (hu : u ∈ l) :
    u.ID ≤ l.foldl (fun m u => if u.ID > m then u.ID else m) acc := by
  induction l generalizing acc with
  | nil => cases hu
  | cons x xs ih =>
    rw [List.foldl_cons]
    rcases List.mem_cons.mp hu with rfl | hmem
    · refine le_trans ?_ (userFold_ge_acc xs _)
      by_cases h : u.ID > acc
      · rw [if_pos h]
      · rw [if_neg h]; omega
    · exact ih _ hmem

/-- The `maxID` fold is its accumulator or an element of the list. -/
theorem userFold_attained (l : List User) : ∀ acc : Int,
    l.foldl (fun m u => if u.ID > m then u.ID else m) acc = acc ∨
    ∃ u ∈ l, u.ID = l.foldl (fun m u => if u.ID > m then u.ID else m) acc := by
  induction l with
  | nil => intro acc; left; rfl
  | cons x xs ih =>
    intro acc
    rw [List.foldl_cons]
    rcases ih (if x.ID > acc then x.ID else acc) with h | ⟨u, hu, hid⟩
    · by_cases hx : x.ID > acc
      · right
        exact ⟨x, List.mem_cons_self x xs, by rw [h, if_pos hx]⟩
      · left
        rw [h, if_neg hx]
    · right
      exact ⟨u, List.mem_cons_of_mem x hu, hid⟩

/-- Every present user ID is at most `maxUserID`. -/
theorem mem_le_maxUserID (u : User) (l : List User) (hu : u ∈ l) :
    u.ID ≤ maxUserID l :=
  userFold_ge_mem l 0 u hu

/-- Appending a user above the current maximum moves the maximum to it. -/
theorem maxUserID_append_new (l : List User) (u : User) (h : maxUserID l < u.ID) :
    maxUserID (l ++ [u]) = u.ID := by
  unfold maxUserID at *
  rw [List.foldl_append]
  show (if u.ID > _ then u.ID else _) = u.ID
  rw [if_pos h]

/-- On a nonempty collection of positive IDs, `maxUserID` is attained. -/
theorem maxUserID_attained (l : List User) (hne : l ≠ [])
    (hpos : ∀ u ∈ l, 0 < u.ID) : ∃ u ∈ l, u.ID = maxUserID l := by
  unfold maxUserID
  rcases userFold_attained l 0 with h | h
  · obtain ⟨u₁, hu₁⟩ : ∃ u, u ∈ l := by
      cases l with
      | nil => exact absurd rfl hne
      | cons x xs => exact ⟨x, List.mem_cons_self x xs⟩
    have h1 := userFold_ge_mem l 0 u₁ hu₁
    have h2 := hpos u₁ hu₁
    omega
  · exact h

/-- Task-side analog of `userFold_ge_acc`. -/
theorem taskFold_ge_acc (l : List Task) (acc : Int) :
    acc ≤ l.foldl (fun m t => if t.ID > m then t.ID else m) acc := by
  induction l generalizing acc with
  | nil => simp
  | cons x xs ih =>
    rw [List.foldl_cons]
    refine le_trans ?_ (ih _)
    by_cases h : x.ID > acc
    · rw [if_pos h]; omega
    · rw [if_neg h]

/-- Task-side analog of `userFold_ge_mem`. -/
theorem taskFold_ge_mem (l : List Task) (acc : Int) (t : Task) (ht : t ∈ l) :
    t.ID ≤ l.foldl (fun m t => if t.ID > m then t.ID else m) acc := by
  induction l generalizing acc with
  | nil => cases ht
  | cons x xs ih =>
    rw [List.foldl_cons]
    rcases List.mem_cons.mp ht with rfl | hmem
    · refine le_trans ?_ (taskFold_ge_acc xs _)
      by_cases h : t.ID > acc
      · rw [if_pos h]
      · rw [if_neg h]; omega
    · exact ih _ hmem

/-- Task-side analog of `userFold_attained`. -/
theorem taskFold_attained (l : List Task) : ∀ acc : Int,
    l.foldl (fun m t => if t.ID > m then t.ID else m) acc = acc ∨
    ∃ t ∈ l, t.ID = l.foldl (fun m t => if t.ID > m then t.ID else m) acc := by
  induction l with
  | nil => intro acc; left; rfl
  | cons x xs ih =>
    intro acc
    rw [List.foldl_cons]
    rcases ih (if x.ID > acc then x.ID else acc) with h | ⟨t, ht, hid⟩
    · by_cases hx : x.ID > acc
      · right
        exact ⟨x, List.mem_cons_self x xs, by rw [h, if_pos hx]⟩
      · left
        rw [h, if_neg hx]
    · right
      exact ⟨t, List.mem_cons_of_mem x ht, hid⟩

/-- Every present task ID is at most `maxTaskID`. -/
theorem mem_le_maxTaskID (t : Task) (l : List Task) (ht : t ∈ l) :
    t.ID ≤ maxTaskID l :=
  taskFold_ge_mem l 0 t ht

/-- Appending a task above the current maximum moves the maximum to it. -/
theorem maxTaskID_append_new (l : List Task) (t : Task) (h : maxTaskID l < t.ID) :
    maxTaskID (l ++ [t]) = t.ID := by
  unfold maxTaskID at *
  rw [List.foldl_append]
  show (if t.ID > _ then t.ID else _) = t.ID
  rw [if_pos h]

/-- On a nonempty collection of positive IDs, `maxTaskID` is attained. -/
theorem maxTaskID_attained (l : List Task) (hne : l ≠ [])
    (hpos : ∀ t ∈ l, 0 < t.ID) : ∃ t ∈ l, t.ID = maxTaskID l := by
  unfold maxTaskID
  rcases taskFold_attained l 0 with h | h
  · obtain ⟨t₁, ht₁⟩ : ∃ t, t ∈ l := by
      cases l with
      | nil => exact absurd rfl hne
      | cons x xs => exact ⟨x, List.mem_cons_self x xs⟩
    have h1 := taskFold_ge_mem l 0 t₁ ht₁
    have h2 := hpos t₁ ht₁
    omega
  · exact h

/-- Every user ID assigned along a call sequence exceeds the maximum user
ID of the starting store. -/
theorem assignedUserIDs_gt (calls : List StoreCall) : ∀ (s : Store),
    ∀ x ∈ assignedUserIDs s calls, maxUserID s.users < x := by
  induction calls with
  | nil =>
    intro s x hx
    cases hx
  | cons c rest ih =>
    intro s x hx
    cases c with
    | mkUser n e r =>
      rw [assignedUserIDs_user] at hx
      have hnew : (CreateUser s n e r).user.ID = maxUserID s.users + 1 := rfl
      rcases List.mem_cons.mp hx with rfl | hmem
      · omega
      · have hmax : maxUserID (CreateUser s n e r).store.users = maxUserID s.users + 1 := by
          rw [show (CreateUser s n e r).store.users
              = s.users ++ [(CreateUser s n e r).user] from rfl,
            maxUserID_append_new _ _ (by omega), hnew]
        have hgt := ih (CreateUser s n e r).store x hmem
        omega
    | mkTask ti st uid =>
      rw [assignedUserIDs_task] at hx
      exact ih (CreateTask s ti st uid).store x hx

/-- Every task ID assigned along a call sequence exceeds the maximum task
ID of the starting store. -/
theorem assignedTaskIDs_gt (calls : List StoreCall) : ∀ (s : Store),
    ∀ x ∈ assignedTaskIDs s calls, maxTaskID s.tasks < x := by
  induction calls with
  | nil =>
    intro s x hx
    cases hx
  | cons c rest ih =>
    intro s x hx
    cases c with
    | mkTask ti st uid =>
      rw [assignedTaskIDs_task] at hx
      have hnew : (CreateTask s ti st uid).task.ID = maxTaskID s.tasks + 1 := rfl
      rcases List.mem_cons.mp hx with rfl | hmem
      · omega
      · have hmax : maxTaskID (CreateTask s ti st uid).store.tasks = maxTaskID s.tasks + 1 := by
          rw [show (CreateTask s ti st uid).store.tasks
              = s.tasks ++ [(CreateTask s ti st uid).task] from rfl,
            maxTaskID_append_new _ _ (by omega), hnew]
        have hgt := ih (CreateTask s ti st uid).store x hmem
        omega
    | mkUser n e r =>
      rw [assignedTaskIDs_user] at hx
      exact ih (CreateUser s n e r).store x hx

/-- The user IDs assigned along a call sequence are strictly increasing. -/
theorem assignedUserIDs_pairwise_lt (calls : List StoreCall) : ∀ (s : Store),
    List.Pairwise (· < ·) (assignedUserIDs s calls) := by
  induction calls with
  | nil =>
    intro s
    exact List.Pairwise.nil
  | cons c rest ih =>
    intro s
    cases c with
    | mkUser n e r =>
      rw [assignedUserIDs_user]
      refine List.pairwise_cons.mpr ⟨?_, ih _⟩
      intro x hx
      have hnew : (CreateUser s n e r).user.ID = maxUserID s.users + 1 := rfl
      have hmax : maxUserID (CreateUser s n e r).store.users = maxUserID s.users + 1 := by
        rw [show (CreateUser s n e r).store.users
            = s.users ++ [(CreateUser s n e r).user] from rfl,
          maxUserID_append_new _ _ (by omega), hnew]
      have hgt := assignedUserIDs_gt rest (CreateUser s n e r).store x hx
      omega
    | mkTask ti st uid =>
      rw [assignedUserIDs_task]
      exact ih _

/-- The task IDs assigned along a call sequence are strictly increasing. -/
theorem assignedTaskIDs_pairwise_lt (calls : List StoreCall) : ∀ (s : Store),
    List.Pairwise (· < ·) (assignedTaskIDs s calls) := by
  induction calls with
  | nil =>
    intro s
    exact List.Pairwise.nil
  | cons c rest ih =>
    intro s
    cases c with
    | mkTask ti st uid =>
      rw [assignedTaskIDs_task]
      refine List.pairwise_cons.mpr ⟨?_, ih _⟩
      intro x hx
      have hnew : (CreateTask s ti st uid).task.ID = maxTaskID s.tasks + 1 := rfl
      have hmax : maxTaskID (CreateTask s ti st uid).store.tasks = maxTaskID s.tasks + 1 := by
        rw [show (CreateTask s ti st uid).store.tasks
            = s.tasks ++ [(CreateTask s ti st uid).task] from rfl,
          maxTaskID_append_new _ _ (by omega), hnew]
      have hgt := assignedTaskIDs_gt rest (CreateTask s ti st uid).store x hx
      omega
    | mkUser n e r =>
      rw [assignedTaskIDs_user]
      exact ih _

/-- Claim C1: a creation call assigns `max(existing IDs) + 1` in its own
collection — 1 on an empty collection, and the successor of an attained
maximum on a nonempty collection of positive IDs — so the assigned ID
exceeds every present ID and is never a reuse; and along any sequence of
creation calls from any store, the user IDs assigned and the task IDs
assigned are each strictly increasing. -/
theorem create_assigns_max_id_plus_one (s : Store) (n e r ti st : String)
    (uid : Int) (calls : List StoreCall) :
    (s.users = [] → (CreateUser s n e r).user.ID = 1) ∧
    ((∀ u ∈ s.users, 0 < u.ID) → s.users ≠ [] →
      (∃ u₀ ∈ s.users, u₀.ID + 1 = (CreateUser s n e r).user.ID) ∧
      ∀ u ∈ s.users, u.ID < (CreateUser s n e r).user.ID) ∧
    (CreateUser s n e r).user.ID ∉ s.users.map User.ID ∧
    (s.tasks = [] → (CreateTask s ti st uid).task.ID = 1) ∧
    ((∀ t ∈ s.tasks, 0 < t.ID) → s.tasks ≠ [] →
      (∃ t₀ ∈ s.tasks, t₀.ID + 1 = (CreateTask s ti st uid).task.ID) ∧
      ∀ t ∈ s.tasks, t.ID < (CreateTask s ti st uid).task.ID) ∧
    (CreateTask s ti st uid).task.ID ∉ s.tasks.map Task.ID ∧
    List.Pairwise (· < ·) (assignedUserIDs s calls) ∧
    List.Pairwise (· < ·) (assignedTaskIDs s calls) := by
  have hnewU : (CreateUser s n e r).user.ID = maxUserID s.users + 1 := rfl
  have hnewT : (CreateTask s ti st uid).task.ID = maxTaskID s.tasks + 1 := rfl
  refine ⟨?_, ?_, ?_, ?_, ?_, ?_, ?_, ?_⟩
  · intro h
    rw [hnewU, h]
    rfl
  · intro hpos hne
    obtain ⟨u₀, hu₀, hid⟩ := maxUserID_attained s.users hne hpos
    refine ⟨⟨u₀, hu₀, by omega⟩, ?_⟩
    intro u hu
    have := mem_le_maxUserID u s.users hu
    omega
  · intro hmem
    obtain ⟨u, hu, hid⟩ := List.mem_map.mp hmem
    have := mem_le_maxUserID u s.users hu
    omega
  · intro h
    rw [hnewT, h]
    rfl
  · intro hpos hne
    obtain ⟨t₀, ht₀, hid⟩ := maxTaskID_attained s.tasks hne hpos
    refine ⟨⟨t₀, ht₀, by omega⟩, ?_⟩
    intro t ht
    have := mem_le_maxTaskID t s.tasks ht
    omega
  · intro hmem
    obtain ⟨t, ht, hid⟩ := List.mem_map.mp hmem
    have := mem_le_maxTaskID t s.tasks ht
    omega
  · exact assignedUserIDs_pairwise_lt calls s
  · exact assignedTaskIDs_pairwise_lt calls s

/-- Claim C1, witness at the seed store: the next user ID is the attained
maximum plus one and exceeds every present user ID. -/
theorem create_assigns_max_id_plus_one_witness :
    (∃ u₀ ∈ defaultStore.users,
        u₀.ID + 1 = (CreateUser defaultStore "Eve" "eve@x.com" "dev").user.ID) ∧
    ∀ u ∈ defaultStore.users,
      u.ID < (CreateUser defaultStore "Eve" "eve@x.com" "dev").user.ID :=
  (create_assigns_max_id_plus_one defaultStore "Eve" "eve@x.com" "dev" "t" "pending" 1
    []).2.1 (by decide) (by decide)

end GoBackend

